import Mathlib

/-!
# Verification of the hardhat-soko artifact versioning core

This file gives a shallow embedding, in Lean 4, of the content-addressing,
diff, summary-filter, push and pull logic of the `hardhat-soko` plugin
(`src/push.ts`, `src/pull.ts`, `src/generate-typings.ts`,
`src/scripts/retrieve-releases-summary.ts`, `src/local-storage-provider.ts`,
`src/utils.ts`), and proves or refutes the specified properties of that code.

Modelling conventions:
* JavaScript strings are Lean `String`s; byte sequences are `List Nat`
  (each entry `< 256`).
* Node's `crypto.createHash("sha256")` is embedded as a real executable
  SHA-256 over the concatenation of the bytes passed to `update`
  (Node concatenates `update` inputs); `digest("hex")` / `digest("base64")`
  are real hex / base64 renderings of the 32 digest bytes.
* Asynchronous I/O is embedded by explicit state passing: the storage
  providers become finite maps, and the success or failure of each
  individual network / filesystem call is an explicit input (an
  environment of outcome functions), so that the control flow of the
  TypeScript functions can be translated branch by branch.
-/

namespace Soko

/-! ## Bytes, SHA-256, hex, base64, UTF-8

A faithful executable SHA-256 (FIPS 180-4) over byte lists, used by
`pushArtifact` (`src/push.ts`), `LocalStorageProvider.retrieveArtifactId`
(`src/local-storage-provider.ts`), `hashContract`
(`src/scripts/retrieve-releases-summary.ts`) and the summary builder
(`src/generate-typings.ts`).
-/

/-- 2^32, the modulus of 32-bit machine arithmetic used by SHA-256. -/
def word32 : Nat := 4294967296

/-- Right rotation of a 32-bit word by `n` places. -/
def rotr32 (n x : Nat) : Nat := ((x >>> n) ||| (x <<< (32 - n))) % word32

/-- SHA-256 small sigma 0. -/
def sSig0 (x : Nat) : Nat := rotr32 7 x ^^^ rotr32 18 x ^^^ (x >>> 3)

/-- SHA-256 small sigma 1. -/
def sSig1 (x : Nat) : Nat := rotr32 17 x ^^^ rotr32 19 x ^^^ (x >>> 10)

/-- SHA-256 big sigma 0. -/
def bSig0 (x : Nat) : Nat := rotr32 2 x ^^^ rotr32 13 x ^^^ rotr32 22 x

/-- SHA-256 big sigma 1. -/
def bSig1 (x : Nat) : Nat := rotr32 6 x ^^^ rotr32 11 x ^^^ rotr32 25 x

/-- SHA-256 choice function; `¬x` is taken inside 32 bits. -/
def chFn (x y z : Nat) : Nat := (x &&& y) ^^^ ((x ^^^ (word32 - 1)) &&& z)

/-- SHA-256 majority function. -/
def majFn (x y z : Nat) : Nat := (x &&& y) ^^^ (x &&& z) ^^^ (y &&& z)

/-- The 64 SHA-256 round constants. -/
def sha256K : List Nat :=
  [0x428a2f98, 0x71374491, 0xb5c0fbcf, 0xe9b5dba5, 0x3956c25b, 0x59f111f1, 0x923f82a4] ++
  [0xab1c5ed5, 0xd807aa98, 0x12835b01, 0x243185be, 0x550c7dc3, 0x72be5d74, 0x80deb1fe] ++
  [0x9bdc06a7, 0xc19bf174, 0xe49b69c1, 0xefbe4786, 0x0fc19dc6, 0x240ca1cc, 0x2de92c6f] ++
  [0x4a7484aa, 0x5cb0a9dc, 0x76f988da, 0x983e5152, 0xa831c66d, 0xb00327c8, 0xbf597fc7] ++
  [0xc6e00bf3, 0xd5a79147, 0x06ca6351, 0x14292967, 0x27b70a85, 0x2e1b2138, 0x4d2c6dfc] ++
  [0x53380d13, 0x650a7354, 0x766a0abb, 0x81c2c92e, 0x92722c85, 0xa2bfe8a1, 0xa81a664b] ++
  [0xc24b8b70, 0xc76c51a3, 0xd192e819, 0xd6990624, 0xf40e3585, 0x106aa070, 0x19a4c116] ++
  [0x1e376c08, 0x2748774c, 0x34b0bcb5, 0x391c0cb3, 0x4ed8aa4a, 0x5b9cca4f, 0x682e6ff3] ++
  [0x748f82ee, 0x78a5636f, 0x84c87814, 0x8cc70208, 0x90befffa, 0xa4506ceb, 0xbef9a3f7] ++
  [0xc67178f2]

/-- The SHA-256 working state: eight 32-bit words. -/
structure H8 where
  v0 : Nat
  v1 : Nat
  v2 : Nat
  v3 : Nat
  v4 : Nat
  v5 : Nat
  v6 : Nat
  v7 : Nat
deriving DecidableEq

/-- SHA-256 initial hash value. -/
def sha256Init : H8 :=
  ⟨0x6a09e667, 0xbb67ae85, 0x3c6ef372, 0xa54ff53a, 0x510e527f, 0x9b05688c, 0x1f83d9ab, 0x5be0cd19⟩

/-- Extend a 16-word block by `n` further schedule words. -/
def schedRounds : Nat → List Nat → List Nat
  | 0, w => w
  | n + 1, w =>
    let next := (sSig1 (w.getD (w.length - 2) 0) + w.getD (w.length - 7) 0 +
                 sSig0 (w.getD (w.length - 15) 0) + w.getD (w.length - 16) 0) % word32
    schedRounds n (w ++ [next])

/-- One SHA-256 round; `kw` is the round constant plus the schedule word. -/
def sha256Round (s : H8) (kw : Nat) : H8 :=
  let t1 := (s.v7 + bSig1 s.v4 + chFn s.v4 s.v5 s.v6 + kw) % word32
  let t2 := (bSig0 s.v0 + majFn s.v0 s.v1 s.v2) % word32
  ⟨(t1 + t2) % word32, s.v0, s.v1, s.v2, (s.v3 + t1) % word32, s.v4, s.v5, s.v6⟩

/-- Compress one 16-word block into the running state. -/
def sha256Block (s : H8) (block : List Nat) : H8 :=
  let w := schedRounds 48 block
  let kw := (sha256K.zip w).map (fun p => (p.1 + p.2) % word32)
  let t := kw.foldl sha256Round s
  ⟨(s.v0 + t.v0) % word32, (s.v1 + t.v1) % word32, (s.v2 + t.v2) % word32,
   (s.v3 + t.v3) % word32, (s.v4 + t.v4) % word32, (s.v5 + t.v5) % word32,
   (s.v6 + t.v6) % word32, (s.v7 + t.v7) % word32⟩

/-- The 8-byte big-endian rendering of a length in bits. -/
def bigEndian8 (n : Nat) : List Nat :=
  [(n >>> 56) % 256, (n >>> 48) % 256, (n >>> 40) % 256, (n >>> 32) % 256,
   (n >>> 24) % 256, (n >>> 16) % 256, (n >>> 8) % 256, n % 256]

/-- SHA-256 message padding: `0x80`, zeros, then the 64-bit bit length. -/
def padMessage (msg : List Nat) : List Nat :=
  let padZeros := (64 - (msg.length + 9) % 64) % 64
  msg ++ [0x80] ++ List.replicate padZeros 0 ++ bigEndian8 (msg.length * 8)

/-- Group bytes into 32-bit big-endian words. -/
def toWords : List Nat → List Nat
  | b0 :: b1 :: b2 :: b3 :: rest =>
    (b0 * 16777216 + b1 * 65536 + b2 * 256 + b3) :: toWords rest
  | _ => []

/-- Split a byte list into 64-byte chunks. The fuel argument, instantiated
with the list length by `chunk64`, makes the recursion structural; one
chunk consumes at least one element, so the fuel never runs out. -/
def chunk64F : Nat → List Nat → List (List Nat)
  | 0, _ => []
  | _, [] => []
  | fuel + 1, x :: rest => (x :: rest.take 63) :: chunk64F fuel (rest.drop 63)

/-- Split a byte list into 64-byte chunks. -/
def chunk64 (l : List Nat) : List (List Nat) := chunk64F l.length l

/-- The four big-endian bytes of a 32-bit word. -/
def wordBytes (n : Nat) : List Nat :=
  [(n >>> 24) % 256, (n >>> 16) % 256, (n >>> 8) % 256, n % 256]

/-- SHA-256 of a byte list: the 32 digest bytes. -/
def sha256 (msg : List Nat) : List Nat :=
  let s := (chunk64 (padMessage msg)).foldl (fun st b => sha256Block st (toWords b)) sha256Init
  wordBytes s.v0 ++ wordBytes s.v1 ++ wordBytes s.v2 ++ wordBytes s.v3 ++
  wordBytes s.v4 ++ wordBytes s.v5 ++ wordBytes s.v6 ++ wordBytes s.v7

/-- Lower-case hex digit for a value below 16. -/
def hexChar (n : Nat) : Char :=
  if n < 10 then Char.ofNat (48 + n) else Char.ofNat (87 + n)

/-- Lower-case hex rendering of a byte list (`digest("hex")`). -/
def hexOfBytes (bs : List Nat) : List Char :=
  bs.flatMap (fun b => [hexChar (b / 16), hexChar (b % 16)])

/-- The standard base64 alphabet. -/
def base64Char (n : Nat) : Char :=
  if n < 26 then Char.ofNat (65 + n)
  else if n < 52 then Char.ofNat (97 + (n - 26))
  else if n < 62 then Char.ofNat (48 + (n - 52))
  else if n = 62 then '+'
  else '/'

/-- Standard base64 rendering of a byte list (`digest("base64")`). -/
def base64Chars : List Nat → List Char
  | [] => []
  | [b0] => [base64Char (b0 / 4), base64Char ((b0 % 4) * 16), '=', '=']
  | [b0, b1] => [base64Char (b0 / 4), base64Char ((b0 % 4) * 16 + b1 / 16),
                 base64Char ((b1 % 16) * 4), '=']
  | b0 :: b1 :: b2 :: rest =>
    base64Char (b0 / 4) :: base64Char ((b0 % 4) * 16 + b1 / 16) ::
    base64Char ((b1 % 16) * 4 + b2 / 64) :: base64Char (b2 % 64) :: base64Chars rest

/-- UTF-8 encoding of one Unicode scalar value. -/
def utf8Char (c : Char) : List Nat :=
  let n := c.toNat
  if n < 128 then [n]
  else if n < 2048 then [192 + n / 64, 128 + n % 64]
  else if n < 65536 then [224 + n / 4096, 128 + (n / 64) % 64, 128 + n % 64]
  else [240 + n / 262144, 128 + (n / 4096) % 64, 128 + (n / 64) % 64, 128 + n % 64]

/-- UTF-8 encoding of a string, as Node's `hash.update(string)` uses. -/
def utf8Bytes (s : String) : List Nat := s.data.flatMap utf8Char

/-- The artifact id derived by `pushArtifact` (`src/push.ts` lines 60-63):
`createHash("sha256")` over the document content, `digest("hex")`,
truncated by `substring(0, 12)`. -/
def pushDerivedArtifactId (content : String) : String :=
  String.mk ((hexOfBytes (sha256 (utf8Bytes content))).take 12)

/-- The artifact id recomputed by `LocalStorageProvider.retrieveArtifactId`
(`src/local-storage-provider.ts` lines 145-156): `createHash("sha256")` over
the stored file content, `digest("base64")`, truncated by
`substring(0, 12)`. -/
def retrieveArtifactId (content : String) : String :=
  String.mk ((base64Chars (sha256 (utf8Bytes content))).take 12)

/-! ## JSON values and `JSON.stringify`

The artifact documents carry JSON sub-values (`abi` member fields, `evm`
debug data, ...). `JSON.stringify` of a zod-parsed object renders the
object's fields in their insertion order, which for objects produced by a
`z.object` schema is the schema declaration order of `ZContractInfo`
(`src/utils.ts` lines 45-79); the embedding hard-wires that order in the
`toJson` functions below. JSON numbers are modelled as integers (the
documents hashed here carry no fractional numbers, and double formatting
is out of scope). -/

/-- A JSON value. Object fields are kept in serialization order. -/
inductive Json where
  | null : Json
  | bool (b : Bool) : Json
  | num (n : Int) : Json
  | str (s : String) : Json
  | arr (xs : List Json) : Json
  | obj (fields : List (String × Json)) : Json

/-- The escape of one character inside a JSON string literal, as
`JSON.stringify` produces it. -/
def jsonEscapeChar (c : Char) : List Char :=
  if c = '"' then ['\\', '"']
  else if c = '\\' then ['\\', '\\']
  else if c = '\n' then ['\\', 'n']
  else if c = '\t' then ['\\', 't']
  else if c = '\r' then ['\\', 'r']
  else if c.toNat = 8 then ['\\', 'b']
  else if c.toNat = 12 then ['\\', 'f']
  else if c.toNat < 32 then
    ['\\', 'u', '0', '0', hexChar (c.toNat / 16), hexChar (c.toNat % 16)]
  else [c]

/-- A JSON string literal, quotes included. -/
def jsonQuote (s : String) : List Char :=
  '"' :: s.data.flatMap jsonEscapeChar ++ ['"']

mutual

/-- `JSON.stringify` of a JSON value (no spacing argument). -/
def stringifyJson : Json → List Char
  | .null => "null".data
  | .bool true => "true".data
  | .bool false => "false".data
  | .num n => (toString n).data
  | .str s => jsonQuote s
  | .arr xs => '[' :: stringifyArr xs ++ [']']
  | .obj fs => '{' :: stringifyObj fs ++ ['}']

/-- Comma-separated serialization of array elements. -/
def stringifyArr : List Json → List Char
  | [] => []
  | [x] => stringifyJson x
  | x :: y :: rest => stringifyJson x ++ ',' :: stringifyArr (y :: rest)

/-- Comma-separated serialization of object fields. -/
def stringifyObj : List (String × Json) → List Char
  | [] => []
  | [(k, v)] => jsonQuote k ++ ':' :: stringifyJson v
  | (k, v) :: f :: rest => jsonQuote k ++ ':' :: stringifyJson v ++ ',' :: stringifyObj (f :: rest)

end

/-! ## Contract entries and the two contract digests

`ZContractInfo` (`src/utils.ts` lines 45-79) shapes each compiled contract.
Only the fields that the hashing logic can reach are modelled structurally;
the remaining fields are opaque JSON. -/

/-- One ABI member, with the `z.object` field order
`inputs, name, outputs, stateMutability, type`. -/
structure AbiItem where
  inputs : List Json
  name : String
  outputs : List Json
  stateMutability : String
  type : String

/-- `evm.bytecode` / `evm.deployedBytecode`, with the `z.object` field order
of `src/utils.ts` lines 56-64. -/
structure BytecodeInfo where
  functionDebugData : Json
  generatedSources : List Json
  linkReferences : Json
  object : String
  opcodes : String
  sourceMap : String

/-- The `evm` section, with the `z.object` field order of
`src/utils.ts` lines 56-75. -/
structure EvmInfo where
  bytecode : BytecodeInfo
  deployedBytecode : BytecodeInfo
  gasEstimates : Json
  methodIdentifiers : Json

/-- One compiled contract (`ZContractInfo`). -/
structure ContractInfo where
  abi : List AbiItem
  devdoc : Json
  evm : EvmInfo
  metadata : String
  storageLayout : Json
  userdoc : Json

/-- The JSON value `JSON.stringify` sees for an ABI member. -/
def AbiItem.toJson (a : AbiItem) : Json :=
  .obj [("inputs", .arr a.inputs), ("name", .str a.name), ("outputs", .arr a.outputs),
        ("stateMutability", .str a.stateMutability), ("type", .str a.type)]

/-- The JSON value `JSON.stringify` sees for a bytecode section. -/
def BytecodeInfo.toJson (b : BytecodeInfo) : Json :=
  .obj [("functionDebugData", b.functionDebugData), ("generatedSources", .arr b.generatedSources),
        ("linkReferences", b.linkReferences), ("object", .str b.object),
        ("opcodes", .str b.opcodes), ("sourceMap", .str b.sourceMap)]

/-- The JSON value `JSON.stringify` sees for the `evm` section. -/
def EvmInfo.toJson (e : EvmInfo) : Json :=
  .obj [("bytecode", e.bytecode.toJson), ("deployedBytecode", e.deployedBytecode.toJson),
        ("gasEstimates", e.gasEstimates), ("methodIdentifiers", e.methodIdentifiers)]

/-- Executable lexicographic comparison of character lists by code point.
This models `a.localeCompare(b) <= 0`; the default-locale ICU collation
agrees with code-point order on the identifier-like ASCII names that occur
in ABIs (it differs on case-mixed or non-ASCII names, a deliberate
approximation). -/
def charListLe : List Char → List Char → Bool
  | [], _ => true
  | _ :: _, [] => false
  | a :: as, b :: bs =>
    if a.toNat < b.toNat then true
    else if b.toNat < a.toNat then false
    else charListLe as bs

/-- The comparator of `contract.abi.sort((a, b) => a.name.localeCompare(b.name))`
(`src/scripts/retrieve-releases-summary.ts` line 253), as a relation. -/
def abiNameRel (a b : AbiItem) : Prop := charListLe a.name.data b.name.data = true

instance : DecidableRel abiNameRel := fun _ _ => decEq _ _

/-- `hashContract` (`src/scripts/retrieve-releases-summary.ts` lines 250-262):
stable-sort the ABI by member name, feed the serialized sorted members, the
raw `evm.bytecode.object` and the `metadata` string to one SHA-256, and
render the digest in hex. JavaScript's `Array.prototype.sort` with a
consistent comparator is a stable sort; it is embedded as insertion sort,
which produces the same (unique) stable result. -/
def hashContract (c : ContractInfo) : String :=
  let sortedAbi := List.insertionSort abiNameRel c.abi
  let stream := (sortedAbi.flatMap (fun i => stringifyJson i.toJson)) ++
                c.evm.bytecode.object.data ++ c.metadata.data
  String.mk (hexOfBytes (sha256 (stream.flatMap utf8Char)))

/-- The contract digest computed inline by the summary builder
(`src/generate-typings.ts` lines 90-101): one SHA-256 over
`JSON.stringify(contract.abi)` followed by `JSON.stringify(contract.evm)`
(ABI unsorted, whole `evm` object, no metadata), rendered in hex. -/
def summaryContractDigest (c : ContractInfo) : String :=
  let stream := stringifyJson (.arr (c.abi.map AbiItem.toJson)) ++ stringifyJson c.evm.toJson
  String.mk (hexOfBytes (sha256 (stream.flatMap utf8Char)))

/-! ## JavaScript string splitting

`String.prototype.split` with a non-empty separator: scan left to right,
cutting at each leftmost, non-overlapping separator occurrence. (Lean's own
`String.splitOn` has the same semantics but does not reduce inside the
kernel, so the embedding carries its own executable version.) -/

/-- Strip `sep` from the front of `l`, returning the remainder. -/
def stripSeq : List Char → List Char → Option (List Char)
  | [], l => some l
  | _ :: _, [] => none
  | s :: ss, c :: rest => if c = s then stripSeq ss rest else none

/-- `String.prototype.split` with the non-empty separator `s :: ss`;
`acc` holds the reversed characters of the piece being built. The fuel
argument, instantiated with the input length by `jsSplit`, makes the
recursion structural; every step consumes at least one input character, so
the fuel never runs out. -/
def jsSplitGo (s : Char) (ss : List Char) : Nat → List Char → List Char → List (List Char)
  | 0, acc, _ => [acc.reverse]
  | _, acc, [] => [acc.reverse]
  | fuel + 1, acc, c :: rest =>
    if c = s then
      match stripSeq ss rest with
      | some rem => acc.reverse :: jsSplitGo s ss fuel [] rem
      | none => jsSplitGo s ss fuel (c :: acc) rest
    else jsSplitGo s ss fuel (c :: acc) rest

/-- `str.split(sep)` for the non-empty separator `s :: ss`. -/
def jsSplit (s : Char) (ss : List Char) (l : List Char) : List (List Char) :=
  jsSplitGo s ss l.length [] l

/-! ## JavaScript `Number(string)` coercion and `isSemanticVersion`

`isSemanticVersion` (`src/generate-typings.ts` lines 273-290) classifies a
release name by coercing each dot-separated component with `Number(...)`
and testing `Math.floor(x) !== x`. The ECMAScript string-to-number
conversion is embedded below; a finite value is kept as its exact decimal
form `m * 10 ^ e` rather than as an IEEE double, which agrees with
JavaScript on every string whose exact value and nearest double have the
same integrality (in particular on all components below 2^52). -/

/-- An exact decimal value `m * 10 ^ e`. -/
structure DecFloat where
  m : Int
  e : Int
deriving DecidableEq

/-- A JavaScript number as far as `isNaN` / `Math.floor` can observe it. -/
inductive JsNumber where
  | nan : JsNumber
  | posInf : JsNumber
  | negInf : JsNumber
  | fin (d : DecFloat) : JsNumber
deriving DecidableEq

/-- The whitespace characters trimmed by the ECMAScript `StringNumericLiteral`
conversion (WhiteSpace and LineTerminator code points). -/
def isJsWhitespaceChar (c : Char) : Bool :=
  c = ' ' || c = '\t' || c = '\n' || c = '\r' ||
  c.toNat = 11 || c.toNat = 12 || c.toNat = 160 ||
  c.toNat = 0xfeff || c.toNat = 0x2028 || c.toNat = 0x2029

/-- ASCII decimal digit test. -/
def isDigitChar (c : Char) : Bool := 48 ≤ c.toNat && c.toNat ≤ 57

/-- The natural number denoted by a list of decimal digits. -/
def digitsToNat (l : List Char) : Nat := l.foldl (fun a c => a * 10 + (c.toNat - 48)) 0

/-- The value of one digit in the given radix, if it is one. -/
def radixDigitVal (radix : Nat) (c : Char) : Option Nat :=
  let v :=
    if 48 ≤ c.toNat && c.toNat ≤ 57 then some (c.toNat - 48)
    else if 97 ≤ c.toNat && c.toNat ≤ 102 then some (c.toNat - 87)
    else if 65 ≤ c.toNat && c.toNat ≤ 70 then some (c.toNat - 55)
    else none
  match v with
  | some n => if n < radix then some n else none
  | none => none

/-- A non-empty digit string in the given radix, as used after the
`0x` / `0o` / `0b` prefixes. -/
def parseRadixDigits (radix : Nat) : List Char → Option Nat
  | [] => none
  | l => l.foldl (fun acc c =>
      match acc, radixDigitVal radix c with
      | some a, some d => some (a * radix + d)
      | _, _ => none) (some 0)

/-- The decimal mantissa `digits [. digits?] | . digits`, returning its exact
decimal value and the unconsumed rest. -/
def parseMantissa (l : List Char) : Option (DecFloat × List Char) :=
  let ip := l.takeWhile isDigitChar
  let rest := l.dropWhile isDigitChar
  match rest with
  | '.' :: rest2 =>
    let fp := rest2.takeWhile isDigitChar
    let rest3 := rest2.dropWhile isDigitChar
    if ip.isEmpty && fp.isEmpty then none
    else some (⟨(digitsToNat (ip ++ fp) : Int), -(fp.length : Int)⟩, rest3)
  | _ => if ip.isEmpty then none else some (⟨(digitsToNat ip : Int), 0⟩, rest)

/-- An optionally signed non-empty digit string (the exponent body). -/
def parseSignedDigits : List Char → Option Int
  | '+' :: ds => if ds.isEmpty || !(ds.all isDigitChar) then none else some (digitsToNat ds)
  | '-' :: ds => if ds.isEmpty || !(ds.all isDigitChar) then none else some (-(digitsToNat ds : Int))
  | ds => if ds.isEmpty || !(ds.all isDigitChar) then none else some (digitsToNat ds)

/-- The optional exponent part `[eE] sign? digits`, which must consume the
whole rest. -/
def parseExponentPart : List Char → Option Int
  | [] => some 0
  | 'e' :: rest => parseSignedDigits rest
  | 'E' :: rest => parseSignedDigits rest
  | _ => none

/-- An unsigned ECMAScript decimal literal, which must consume the whole
input. -/
def parseDecimalLiteral (l : List Char) : Option DecFloat := do
  let (d, rest) ← parseMantissa l
  let e ← parseExponentPart rest
  some ⟨d.m, d.e + e⟩

/-- The signed decimal branch of `Number(string)`: an optional sign followed
by a decimal literal, `NaN` otherwise. -/
def decimalOrNan (t : List Char) : JsNumber :=
  let signBody : (Int × List Char) :=
    match t with
    | '+' :: r => (1, r)
    | '-' :: r => (-1, r)
    | r => (1, r)
  match parseDecimalLiteral signBody.2 with
  | some d => .fin ⟨signBody.1 * d.m, d.e⟩
  | none => .nan

/-- ECMAScript `Number(string)`: trim JS whitespace; empty means `0`;
`Infinity` forms; unsigned `0x`/`0o`/`0b` radix literals; otherwise an
optionally signed decimal literal; anything else is `NaN`. -/
def jsStringToNumber (s : List Char) : JsNumber :=
  let t := ((s.dropWhile isJsWhitespaceChar).reverse.dropWhile isJsWhitespaceChar).reverse
  if t.isEmpty then .fin ⟨0, 0⟩
  else if t = "Infinity".data || t = "+Infinity".data then .posInf
  else if t = "-Infinity".data then .negInf
  else
    match t with
    | '0' :: c :: rest =>
      if c = 'x' || c = 'X' then
        match parseRadixDigits 16 rest with
        | some n => .fin ⟨(n : Int), 0⟩
        | none => .nan
      else if c = 'o' || c = 'O' then
        match parseRadixDigits 8 rest with
        | some n => .fin ⟨(n : Int), 0⟩
        | none => .nan
      else if c = 'b' || c = 'B' then
        match parseRadixDigits 2 rest with
        | some n => .fin ⟨(n : Int), 0⟩
        | none => .nan
      else decimalOrNan t
    | _ => decimalOrNan t

/-- `Math.floor(x) !== x` for the finite value `m * 10 ^ e`: false when
`e ≥ 0`, otherwise true unless `10 ^ (-e)` divides `m`. -/
def decFloatNotIntegral (d : DecFloat) : Bool :=
  if 0 ≤ d.e then false else !(d.m % ((10 : Int) ^ (-d.e).toNat) == 0)

/-- The body of the `parts.some(...)` callback in `isSemanticVersion`
(`src/generate-typings.ts` lines 282-287): true when `Number(part)` is
`NaN` or when `Math.floor(partAsNumber) !== partAsNumber` (`Math.floor`
fixes `±Infinity`). -/
def semverPartBad (p : List Char) : Bool :=
  match jsStringToNumber p with
  | .nan => true
  | .posInf => false
  | .negInf => false
  | .fin d => decFloatNotIntegral d

/-- `isSemanticVersion` (`src/generate-typings.ts` lines 273-290): strip one
leading `v`, split on `.`, accept when there are at most three components
and no component fails the numeric-integral test. -/
def isSemanticVersion (s : String) : Bool :=
  let consideredString : List Char :=
    match s.data with
    | 'v' :: rest => rest
    | l => l
  let parts := jsSplit '.' [] consideredString
  if parts.length = 0 then false
  else if parts.length > 3 then false
  else if parts.any semverPartBad then false
  else true

/-! ## The summary builder's similar-release filter

`generateReleasesSummariesAndTypings` (`src/generate-typings.ts` lines
114-147) walks, for each contract key, its `(release, contractDigest)`
tuples (sorted by release name) and drops a semantic-version release whose
digest repeats the last semantic-version digest seen. -/

/-- The `filterSimilarContracts` walk (`src/generate-typings.ts` lines
124-138). `lastHash` is `lastSemanticVersionContractHash`; the JS guard
`lastHash && lastHash === digest` requires the cursor to be a truthy
(non-empty) string. -/
def filterSimilarLoop (lastHash : Option String) : List (String × String) → List String
  | [] => []
  | (release, digest) :: rest =>
    if !isSemanticVersion release then release :: filterSimilarLoop lastHash rest
    else
      match lastHash with
      | some h =>
        if h ≠ "" ∧ h = digest then filterSimilarLoop (some h) rest
        else release :: filterSimilarLoop (some digest) rest
      | none => release :: filterSimilarLoop (some digest) rest

/-- The per-contract release list built by the summary builder
(`src/generate-typings.ts` lines 121-145): the filter walk when
`filterSimilarContracts` is set, every release otherwise. -/
def updatedReleasesForContract (filterSimilarContracts : Bool)
    (tuples : List (String × String)) : List String :=
  if filterSimilarContracts then filterSimilarLoop none tuples
  else tuples.map Prod.fst

/-- The filter walk as §4.4 of the specification words it: an opaque release
name is always kept and never touches the cursor; a semantic-version-shaped
release name is kept exactly when its digest differs from the cursor value
and then becomes the cursor value. Written only to be compared with
`filterSimilarLoop`. -/
def specFilterWalk (cursor : Option String) : List (String × String) → List String
  | [] => []
  | (release, digest) :: rest =>
    if !isSemanticVersion release then release :: specFilterWalk cursor rest
    else if some digest = cursor then specFilterWalk cursor rest
    else release :: specFilterWalk (some digest) rest

/-! ## String-keyed maps

JavaScript `Map` (and the tag / id keyspaces of the storage providers) as
association lists: `mapSet` overwrites in place as `Map.set` does, keeping
the original entry position. -/

/-- `Map.get` / object lookup. -/
def mapGet (m : List (String × String)) (k : String) : Option String :=
  match m with
  | [] => none
  | (k1, v) :: rest => if k1 = k then some v else mapGet rest k

/-- `Map.has`. -/
def mapHas (m : List (String × String)) (k : String) : Bool :=
  (mapGet m k).isSome

/-- `Map.set`: overwrite the existing entry in place, else append. -/
def mapSet (m : List (String × String)) (k v : String) : List (String × String) :=
  match m with
  | [] => [(k, v)]
  | (k1, v1) :: rest => if k1 = k then (k1, v) :: rest else (k1, v1) :: mapSet rest k v

/-! ## The diff algorithm

`generateDiffWithTargetRelease` and its helpers
(`src/scripts/retrieve-releases-summary.ts` lines 123-274). An artifact
document is reduced to its `output.contracts` section: a list of
`(file path, list of (contract name, contract))` entries, in document
order. -/

/-- The `output.contracts` section of an artifact document. -/
abbrev Document := List (String × List (String × ContractInfo))

/-- `formKey` (`src/scripts/retrieve-releases-summary.ts` lines 264-267):
joins path and name with the `@@@@` separator. -/
def formKey (contractPath contractName : String) : String :=
  contractPath ++ "@@@@" ++ contractName

/-- `parseKey` (`src/scripts/retrieve-releases-summary.ts` lines 268-274):
split on `@@@@` and take the first two pieces; `none` models the thrown
`Invalid key` error, raised when either piece is missing or empty (the
falsy test `!contractPath || !contractName`). -/
def parseKey (key : String) : Option (String × String) :=
  match jsSplit '@' ['@', '@', '@'] key.data with
  | p :: n :: _ =>
    if p.isEmpty || n.isEmpty then none else some (String.mk p, String.mk n)
  | _ => none

/-- `generateContractHashes` inner loop over one path's contracts
(`src/scripts/retrieve-releases-summary.ts` lines 240-245). -/
def gchContracts (m : List (String × String)) (path : String) :
    List (String × ContractInfo) → List (String × String)
  | [] => m
  | (name, ci) :: rest => gchContracts (mapSet m (formKey path name) (hashContract ci)) path rest

/-- `generateContractHashes` outer loop (`src/scripts/retrieve-releases-summary.ts`
lines 238-245), threading the accumulated map. -/
def gchAux (m : List (String × String)) : Document → List (String × String)
  | [] => m
  | (path, cs) :: rest => gchAux (gchContracts m path cs) rest

/-- `generateContractHashes` (`src/scripts/retrieve-releases-summary.ts`
lines 229-248): the map from `formKey path name` to `hashContract` of each
contract of the document. -/
def generateContractHashes (doc : Document) : List (String × String) :=
  gchAux [] doc

/-- A diff row status. -/
inductive DiffStatus where
  | added : DiffStatus
  | removed : DiffStatus
  | changed : DiffStatus
deriving DecidableEq

/-- One diff row (`Difference` in `src/scripts/retrieve-releases-summary.ts`
lines 123-127). -/
structure Difference where
  path : String
  name : String
  status : DiffStatus
deriving DecidableEq

/-- The loop over the fresh map's entries
(`src/scripts/retrieve-releases-summary.ts` lines 193-213): parse every
key, emit `added` when the key is absent from the target map, `changed`
when present with a different digest, nothing when present with the same
digest. `none` propagates the `Invalid key` exception. -/
def diffFreshLoop (targetM : List (String × String)) :
    List (String × String) → Option (List Difference)
  | [] => some []
  | (key, digest) :: rest => do
    let pn ← parseKey key
    let tail ← diffFreshLoop targetM rest
    match mapGet targetM key with
    | none => some (⟨pn.1, pn.2, .added⟩ :: tail)
    | some targetDigest =>
      if targetDigest = digest then some tail
      else some (⟨pn.1, pn.2, .changed⟩ :: tail)

/-- The loop over the target map's keys
(`src/scripts/retrieve-releases-summary.ts` lines 215-224): emit `removed`
for every key absent from the fresh map (such keys are parsed only then). -/
def diffTargetLoop (freshM : List (String × String)) :
    List (String × String) → Option (List Difference)
  | [] => some []
  | (key, _) :: rest =>
    if mapHas freshM key then diffTargetLoop freshM rest
    else do
      let pn ← parseKey key
      let tail ← diffTargetLoop freshM rest
      some (⟨pn.1, pn.2, .removed⟩ :: tail)

/-- The classification core of `generateDiffWithTargetRelease`
(`src/scripts/retrieve-releases-summary.ts` lines 192-226), over the two
contract-hash maps. -/
def computeDifferences (freshM targetM : List (String × String)) :
    Option (List Difference) := do
  let fromFresh ← diffFreshLoop targetM freshM
  let fromTarget ← diffTargetLoop freshM targetM
  some (fromFresh ++ fromTarget)

/-- `generateDiffWithTargetRelease` with both documents present
(`src/scripts/retrieve-releases-summary.ts` lines 128-227), reduced to its
pure content: hash both documents' contracts, then classify. `none` models
the rejected promise. -/
def generateDiffWithTargetRelease (fresh target : Document) : Option (List Difference) :=
  computeDifferences (generateContractHashes fresh) (generateContractHashes target)

/-! ## The publisher (`pushArtifact`, `src/push.ts`)

The remote store is the project's tag and id keyspaces, each a map from
name to stored content (the S3 provider stores the same bytes under the id
key and, by server-side copy, under the tag key). The success of each
remote call is an explicit environment input; `Except` models the thrown
`ScriptError`s, and the returned store is the store left behind (errors
thrown before the upload leave it untouched). -/

/-- One project's keyspace in a storage provider. -/
structure Store where
  tags : List (String × String)
  ids : List (String × String)

/-- The distinguishable `ScriptError`s of `pushArtifact`. -/
inductive PushError where
  | artifactRetrievalFailure : PushError
  | tagCheckFailure : PushError
  | tagConflict (tag : String) : PushError
  | uploadFailure : PushError
deriving DecidableEq

/-- Which remote calls of a push succeed. -/
structure PushEnv where
  hasTagCheckOk : Bool
  uploadOk : Bool

/-- `S3BucketProvider.hasArtifactByTag` (`src/s3-bucket-provider.ts` lines
97-112) against the store model. -/
def hasArtifactByTag (store : Store) (tag : String) : Bool :=
  (mapGet store.tags tag).isSome

/-- `S3BucketProvider.uploadArtifact` (`src/s3-bucket-provider.ts` lines
128-151): put the content under the id key and, when a truthy (non-empty)
tag is given, copy it to the tag key. -/
def uploadArtifact (store : Store) (id : String) (tag : Option String)
    (content : String) : Store :=
  let withId : Store := ⟨store.tags, mapSet store.ids id content⟩
  match tag with
  | some t => if t = "" then withId else ⟨mapSet withId.tags t content, withId.ids⟩
  | none => withId

/-- `pushArtifact` (`src/push.ts` lines 10-82). `loaded` is the outcome of
`retrieveFreshCompilationArtifact` (its two failure branches collapse into
one load error); the returned pair is the thrown error or returned id,
together with the store state afterwards. The `if (tag)` truthiness test
treats the empty tag string like an absent tag. -/
def pushArtifact (loaded : Except Unit String) (tag : Option String) (force : Bool)
    (env : PushEnv) (store : Store) : Except PushError String × Store :=
  match loaded with
  | .error _ => (.error .artifactRetrievalFailure, store)
  | .ok content =>
    let tagGate : Except PushError Unit :=
      match tag with
      | some t =>
        if t = "" then .ok ()
        else if !env.hasTagCheckOk then .error .tagCheckFailure
        else if hasArtifactByTag store t && !force then .error (.tagConflict t)
        else .ok ()
      | none => .ok ()
    match tagGate with
    | .error e => (.error e, store)
    | .ok _ =>
      let artifactId := pushDerivedArtifactId content
      if env.uploadOk then (.ok artifactId, uploadArtifact store artifactId tag content)
      else (.error .uploadFailure, store)

/-! ## The synchronizer (`pull`, `src/pull.ts`)

The local store is the set of tag and id names present locally (contents
do not matter for the listing-based reconciliation). The remote listing,
the local listing and each per-item download / local write get explicit
outcomes; a per-item download produces the content stream written locally,
and a failed download or failed write leaves the local name absent. -/

/-- The names present in the local Soko directory. -/
structure LocalState where
  tags : List String
  ids : List String

/-- The distinguishable `ScriptError`s that `pull` can throw. -/
inductive PullError where
  | remoteListingFailure : PullError
  | localListingFailure : PullError
  | unknownTagOrId (s : String) : PullError
deriving DecidableEq

/-- The environment of a pull run: the remote listing (none = the fatal
listing failure), whether the local listing succeeds, and the outcome of
each per-item download and local write. -/
structure PullEnv where
  remoteListing : Option (List String × List String)
  localListingOk : Bool
  downloadTag : String → Option String
  downloadId : String → Option String
  createTagOk : String → String → Bool
  createIdOk : String → String → Bool

/-- Whether the per-tag promise of `pull` (`src/pull.ts` lines 111-134)
fulfills: the download must succeed and the local write must succeed. -/
def tagItemOk (env : PullEnv) (tag : String) : Bool :=
  match env.downloadTag tag with
  | none => false
  | some content => env.createTagOk tag content

/-- Whether the per-id promise of `pull` (`src/pull.ts` lines 135-153)
fulfills. -/
def idItemOk (env : PullEnv) (id : String) : Bool :=
  match env.downloadId id with
  | none => false
  | some content => env.createIdOk id content

/-- The aggregation returned by `pull` (`src/pull.ts` lines 177-185). -/
structure PullResult where
  remoteTags : List String
  remoteIds : List String
  pulledTags : List String
  pulledIds : List String
  failedTags : List String
  failedIds : List String
deriving DecidableEq

/-- Candidate resolution (`src/pull.ts` lines 35-51): a truthy selector is
tested against the remote tags, then the remote ids; without a selector
(the `if (tagOrId)` truthiness test treats the empty string as absent)
every remote tag and id is a candidate. -/
def resolveCandidates (remoteTags remoteIds : List String) :
    Option String → Except PullError (List String × List String)
  | some s =>
    if s = "" then .ok (remoteTags, remoteIds)
    else if remoteTags.contains s then .ok ([s], [])
    else if remoteIds.contains s then .ok ([], [s])
    else .error (.unknownTagOrId s)
  | none => .ok (remoteTags, remoteIds)

/-- Local filtering (`src/pull.ts` lines 53-88): with `force` the candidates
pass through; otherwise the local listing is consulted (its failure is
fatal) and already-present names are dropped. -/
def filterCandidates (force localListingOk : Bool) (local_ : LocalState)
    (cands : List String × List String) : Except PullError (List String × List String) :=
  if force then .ok cands
  else if localListingOk then
    .ok (cands.1.filter (fun t => !(local_.tags.contains t)),
         cands.2.filter (fun i => !(local_.ids.contains i)))
  else .error .localListingFailure

/-- `pull` (`src/pull.ts` lines 16-185): list remote, resolve the selector,
filter against the local listing, return early when nothing is missing,
otherwise settle every download independently and aggregate. The settled
local state (the names whose download and write both succeeded are now
present) is returned alongside. -/
def pull (env : PullEnv) (tagOrId : Option String) (force : Bool) (local_ : LocalState) :
    Except PullError (PullResult × LocalState) :=
  match env.remoteListing with
  | none => .error .remoteListingFailure
  | some (remoteTags, remoteIds) =>
    match resolveCandidates remoteTags remoteIds tagOrId with
    | .error e => .error e
    | .ok cands =>
      match filterCandidates force env.localListingOk local_ cands with
      | .error e => .error e
      | .ok (fTags, fIds) =>
        if fTags.isEmpty && fIds.isEmpty then
          .ok (⟨remoteTags, remoteIds, [], [], [], []⟩, local_)
        else
          let pulledTags := fTags.filter (fun t => tagItemOk env t)
          let failedTags := fTags.filter (fun t => !(tagItemOk env t))
          let pulledIds := fIds.filter (fun i => idItemOk env i)
          let failedIds := fIds.filter (fun i => !(idItemOk env i))
          .ok (⟨remoteTags, remoteIds, pulledTags, pulledIds, failedTags, failedIds⟩,
               ⟨local_.tags ++ pulledTags, local_.ids ++ pulledIds⟩)

/-! ## Derived notions used by the theorems -/

/-- The key list of a map. -/
def mapKeys (m : List (String × String)) : List String := m.map Prod.fst

/-- A map whose keys are pairwise distinct (JavaScript `Map`s and parsed
JSON objects always are). -/
def NoDupKeys (m : List (String × String)) : Prop := (mapKeys m).Nodup

/-- The `(path, name)` pairs of a document, in document order. -/
def docPairs (doc : Document) : List (String × String) :=
  doc.flatMap (fun pe => pe.2.map (fun c => (pe.1, c.1)))

/-- Key hygiene of a document: every contract's `(path, name)` pair survives
the round trip through the `@@@@` key encoding. It holds exactly when paths
and names are non-empty and produce no stray separator occurrence; the
differencer silently assumes it. -/
def KeyOk (doc : Document) : Prop :=
  ∀ pr ∈ docPairs doc, parseKey (formKey pr.1 pr.2) = some pr

instance (doc : Document) : Decidable (KeyOk doc) :=
  inferInstanceAs (Decidable (∀ pr ∈ docPairs doc, parseKey (formKey pr.1 pr.2) = some pr))

/-- The row that one fresh-map entry contributes, in solved form. -/
def freshClassify (targetM : List (String × String)) (e : String × String) :
    Option Difference :=
  match parseKey e.1 with
  | none => none
  | some pn =>
    match mapGet targetM e.1 with
    | none => some ⟨pn.1, pn.2, .added⟩
    | some targetDigest => if targetDigest = e.2 then none else some ⟨pn.1, pn.2, .changed⟩

/-- The row that one target-map entry contributes, in solved form. -/
def targetClassify (freshM : List (String × String)) (e : String × String) :
    Option Difference :=
  if mapHas freshM e.1 then none
  else
    match parseKey e.1 with
    | none => none
    | some pn => some ⟨pn.1, pn.2, .removed⟩

/-! ## Concrete sample inputs used by witnesses and counterexamples -/

/-- A minimal bytecode section. -/
def bytecodeSample : BytecodeInfo :=
  ⟨.obj [], [], .null, "6001600101", "PUSH1 0x1", ""⟩

/-- A minimal `evm` section. -/
def evmSample : EvmInfo := ⟨bytecodeSample, bytecodeSample, .null, .obj []⟩

/-- A sample ABI member named `f`. -/
def abiItemF : AbiItem := ⟨[], "f", [], "nonpayable", "function"⟩

/-- A sample ABI member named `g`. -/
def abiItemG : AbiItem := ⟨[.str "uint256"], "g", [], "view", "function"⟩

/-- A sample contract with a two-member ABI in the order `f, g`. -/
def contractFG : ContractInfo := ⟨[abiItemF, abiItemG], .null, evmSample, "meta", .null, .null⟩

/-- The same contract with its ABI members in the order `g, f`. -/
def contractGF : ContractInfo := ⟨[abiItemG, abiItemF], .null, evmSample, "meta", .null, .null⟩

/-- A well-keyed one-contract document. -/
def docGood : Document := [("src/A.sol", [("A", contractFG)])]

/-- A two-contract well-keyed document. -/
def docTwo : Document := [("src/A.sol", [("A", contractFG), ("B", contractGF)])]

/-- A document whose only contract sits under the empty file path: its map
key `"@@@@A"` makes `parseKey` throw. -/
def docEmptyPath : Document := [("", [("A", contractFG)])]

/-- A document with an empty contract name, for the diff classification
counterexample. -/
def docEmptyName : Document := [("src/A.sol", [("", contractFG)])]

/-- A pull environment with two remote tags and one remote id, where the
download of tag `v2` fails and everything else succeeds. -/
def pullEnvW : PullEnv :=
  ⟨some (["v1", "v2"], ["aaaabbbbcccc"]), true,
   fun t => if t = "v2" then none else some "content",
   fun _ => some "content", fun _ _ => true, fun _ _ => true⟩

/-- A pull environment whose remote listing succeeds but whose local
listing fails. -/
def pullEnvLocalFail : PullEnv :=
  ⟨some (["v1"], []), false, fun _ => some "content", fun _ => some "content",
   fun _ _ => true, fun _ _ => true⟩

/-- A remote store that already has the tag `v1`. -/
def storeWithV1 : Store := ⟨[("v1", "oldcontent")], [("oldid", "oldcontent")]⟩

/-! ## Map lemmas -/

theorem mem_of_mapGet_eq_some {m : List (String × String)} {k v : String}
    (h : mapGet m k = some v) : (k, v) ∈ m := by
  induction m with
  | nil => simp [mapGet] at h
  | cons e rest ih =>
    obtain ⟨k1, v1⟩ := e
    simp only [mapGet] at h
    split at h
    · simp_all
    · exact List.mem_cons_of_mem _ (ih h)

theorem mapGet_isSome_iff_mem_keys {m : List (String × String)} {k : String} :
    (mapGet m k).isSome = true ↔ k ∈ mapKeys m := by
  induction m with
  | nil => simp [mapGet, mapKeys]
  | cons e rest ih =>
    obtain ⟨k1, v1⟩ := e
    simp only [mapGet, mapKeys, List.map_cons, List.mem_cons]
    split
    · simp_all
    · rw [show (mapKeys rest = List.map Prod.fst rest) from rfl] at ih
      simp [ih]
      intro h
      simp_all

theorem mapGet_eq_some_of_mem {m : List (String × String)} {k v : String}
    (hnd : NoDupKeys m) (h : (k, v) ∈ m) : mapGet m k = some v := by
  induction m with
  | nil => simp at h
  | cons e rest ih =>
    obtain ⟨k1, v1⟩ := e
    simp only [NoDupKeys, mapKeys, List.map_cons, List.nodup_cons] at hnd
    rcases List.mem_cons.mp h with h1 | h1
    · injection h1 with e1 e2
      subst e1; subst e2
      simp [mapGet]
    · have hne : k1 ≠ k := by
        intro he
        apply hnd.1
        rw [he]
        exact List.mem_map_of_mem Prod.fst h1
      simp only [mapGet, if_neg hne]
      exact ih hnd.2 h1

theorem mapGet_mapSet_self {m : List (String × String)} {k v : String} :
    mapGet (mapSet m k v) k = some v := by
  induction m with
  | nil => simp [mapSet, mapGet]
  | cons e rest ih =>
    obtain ⟨k1, v1⟩ := e
    simp only [mapSet]
    split
    · simp only [mapGet]
      simp_all
    · simp only [mapGet]
      split
      · simp_all
      · exact ih

theorem mapKeys_mapSet {m : List (String × String)} {k v : String} :
    mapKeys (mapSet m k v) = mapKeys m ∨ mapKeys (mapSet m k v) = mapKeys m ++ [k] := by
  induction m with
  | nil => simp [mapSet, mapKeys]
  | cons e rest ih =>
    obtain ⟨k1, v1⟩ := e
    simp only [mapSet]
    split
    · left; simp [mapKeys]
    · rcases ih with h | h
      · left; simp [mapKeys] at h ⊢; exact h
      · right; simp [mapKeys] at h ⊢; exact h

theorem mem_mapKeys_mapSet {m : List (String × String)} {k v k1 : String}
    (h : k1 ∈ mapKeys (mapSet m k v)) : k1 ∈ mapKeys m ∨ k1 = k := by
  rcases mapKeys_mapSet (m := m) (k := k) (v := v) with he | he <;> rw [he] at h
  · exact Or.inl h
  · simpa using h

theorem noDupKeys_mapSet {m : List (String × String)} {k v : String}
    (h : NoDupKeys m) : NoDupKeys (mapSet m k v) := by
  induction m with
  | nil => simp [mapSet, NoDupKeys, mapKeys]
  | cons e rest ih =>
    obtain ⟨k1, v1⟩ := e
    simp only [NoDupKeys, mapKeys, List.map_cons, List.nodup_cons] at h
    simp only [mapSet]
    split
    · simpa [NoDupKeys, mapKeys] using h
    · rename_i hne
      have := ih h.2
      simp only [NoDupKeys, mapKeys, List.map_cons, List.nodup_cons]
      refine ⟨?_, this⟩
      intro hmem
      rcases mem_mapKeys_mapSet (show k1 ∈ mapKeys (mapSet rest k v) from hmem) with h1 | h1
      · exact h.1 h1
      · exact hne h1

/-! ## Contract-hash map lemmas -/

theorem mem_mapKeys_gchContracts {m : List (String × String)} {path : String}
    {cs : List (String × ContractInfo)} {k : String}
    (h : k ∈ mapKeys (gchContracts m path cs)) :
    k ∈ mapKeys m ∨ ∃ c ∈ cs, k = formKey path c.1 := by
  induction cs generalizing m with
  | nil => exact Or.inl h
  | cons c rest ih =>
    simp only [gchContracts] at h
    rcases ih h with h1 | h1
    · rcases mem_mapKeys_mapSet h1 with h2 | h2
      · exact Or.inl h2
      · exact Or.inr ⟨c, List.mem_cons_self .., h2⟩
    · obtain ⟨c1, hc1, he⟩ := h1
      exact Or.inr ⟨c1, List.mem_cons_of_mem _ hc1, he⟩

theorem mem_mapKeys_gchAux {m : List (String × String)} {doc : Document} {k : String}
    (h : k ∈ mapKeys (gchAux m doc)) :
    k ∈ mapKeys m ∨ ∃ pr ∈ docPairs doc, k = formKey pr.1 pr.2 := by
  induction doc generalizing m with
  | nil => exact Or.inl h
  | cons pe rest ih =>
    simp only [gchAux] at h
    rcases ih h with h1 | h1
    · rcases mem_mapKeys_gchContracts h1 with h2 | h2
      · exact Or.inl h2
      · obtain ⟨c, hc, he⟩ := h2
        refine Or.inr ⟨(pe.1, c.1), ?_, he⟩
        simp only [docPairs, List.mem_flatMap]
        exact ⟨pe, List.mem_cons_self .., List.mem_map_of_mem _ hc⟩
    · obtain ⟨pr, hpr, he⟩ := h1
      refine Or.inr ⟨pr, ?_, he⟩
      simp only [docPairs, List.mem_flatMap] at hpr ⊢
      obtain ⟨pe1, hpe1, hm⟩ := hpr
      exact ⟨pe1, List.mem_cons_of_mem _ hpe1, hm⟩

theorem noDupKeys_gchContracts {m : List (String × String)} {path : String}
    {cs : List (String × ContractInfo)} (h : NoDupKeys m) :
    NoDupKeys (gchContracts m path cs) := by
  induction cs generalizing m with
  | nil => exact h
  | cons c rest ih => exact ih (noDupKeys_mapSet h)

theorem noDupKeys_gchAux {m : List (String × String)} {doc : Document}
    (h : NoDupKeys m) : NoDupKeys (gchAux m doc) := by
  induction doc generalizing m with
  | nil => exact h
  | cons pe rest ih => exact ih (noDupKeys_gchContracts h)

theorem noDupKeys_generateContractHashes (doc : Document) :
    NoDupKeys (generateContractHashes doc) :=
  noDupKeys_gchAux (by simp [NoDupKeys, mapKeys])

/-- Every key of a hygienic document's contract-hash map is a `formKey` of
one of its pairs, and parses back to that pair. -/
theorem gch_key_parse {doc : Document} {k : String} (hok : KeyOk doc)
    (h : k ∈ mapKeys (generateContractHashes doc)) :
    ∃ p n, k = formKey p n ∧ parseKey k = some (p, n) := by
  rcases mem_mapKeys_gchAux h with h1 | h1
  · simp [mapKeys] at h1
  · obtain ⟨pr, hpr, he⟩ := h1
    exact ⟨pr.1, pr.2, he, he ▸ hok pr hpr⟩

/-! ## Diff-loop characterization -/

theorem diffFreshLoop_eq {targetM : List (String × String)}
    {es : List (String × String)} (h : ∀ e ∈ es, (parseKey e.1).isSome = true) :
    diffFreshLoop targetM es = some (es.filterMap (freshClassify targetM)) := by
  induction es with
  | nil => simp [diffFreshLoop]
  | cons e rest ih =>
    obtain ⟨key, digest⟩ := e
    obtain ⟨pn, hpn⟩ := Option.isSome_iff_exists.mp (h _ (List.mem_cons_self ..))
    have htail := ih (fun x hx => h x (List.mem_cons_of_mem _ hx))
    simp only [diffFreshLoop, hpn, htail, Option.bind_eq_bind, Option.some_bind,
      List.filterMap_cons, freshClassify]
    match hres : mapGet targetM key with
    | none => simp [hpn, hres]
    | some td =>
      by_cases hd : td = digest <;> simp [hpn, hres, hd]

theorem diffTargetLoop_eq {freshM : List (String × String)}
    {es : List (String × String)}
    (h : ∀ e ∈ es, mapHas freshM e.1 = false → (parseKey e.1).isSome = true) :
    diffTargetLoop freshM es = some (es.filterMap (targetClassify freshM)) := by
  induction es with
  | nil => simp [diffTargetLoop]
  | cons e rest ih =>
    obtain ⟨key, digest⟩ := e
    have htail := ih (fun x hx => h x (List.mem_cons_of_mem _ hx))
    simp only [diffTargetLoop, List.filterMap_cons, targetClassify]
    match hhas : mapHas freshM key with
    | true => simp [hhas, htail]
    | false =>
      obtain ⟨pn, hpn⟩ := Option.isSome_iff_exists.mp (h _ (List.mem_cons_self ..) hhas)
      simp [hhas, hpn, htail]

/-- Keys of a hygienic document's contract-hash map parse successfully. -/
theorem gch_entry_parse_isSome {doc : Document} (hok : KeyOk doc) :
    ∀ e ∈ generateContractHashes doc, (parseKey e.1).isSome = true := by
  intro e he
  obtain ⟨p, n, _, hp⟩ := gch_key_parse hok (List.mem_map_of_mem Prod.fst he)
  simp [hp]

/-- **C7** — Diff reflexivity holds on every key-hygienic document: diffing
a document against itself yields the empty difference list, provided every
contract's `(path, name)` pair survives the `@@@@` key round trip (the
fresh-side loop parses every key, so a degenerate key makes the diff throw
instead — see the counterexample). -/
theorem diff_self_eq_empty_of_keyOk (doc : Document) (hok : KeyOk doc) :
    generateDiffWithTargetRelease doc doc = some [] := by
  have hnd := noDupKeys_generateContractHashes doc
  set M := generateContractHashes doc with hM
  have hfresh : diffFreshLoop M M = some (M.filterMap (freshClassify M)) :=
    diffFreshLoop_eq (gch_entry_parse_isSome hok)
  have htarget : diffTargetLoop M M = some (M.filterMap (targetClassify M)) :=
    diffTargetLoop_eq (fun e he _ => gch_entry_parse_isSome hok e he)
  have hfreshNil : M.filterMap (freshClassify M) = [] := by
    rw [List.filterMap_eq_nil_iff]
    intro e he
    obtain ⟨key, digest⟩ := e
    obtain ⟨p, n, _, hp⟩ := gch_key_parse hok (List.mem_map_of_mem Prod.fst he)
    have hget : mapGet M key = some digest := mapGet_eq_some_of_mem hnd he
    simp [freshClassify, hp, hget]
  have htargetNil : M.filterMap (targetClassify M) = [] := by
    rw [List.filterMap_eq_nil_iff]
    intro e he
    have hget : mapGet M e.1 = some e.2 := mapGet_eq_some_of_mem hnd he
    simp [targetClassify, mapHas, hget]
  simp [generateDiffWithTargetRelease, computeDifferences, ← hM, hfresh, htarget,
    hfreshNil, htargetNil]

/-- **C7 witness** — reflexivity evaluated on a concrete two-contract
document. -/
theorem diff_self_eq_empty_witness :
    generateDiffWithTargetRelease docTwo docTwo = some [] :=
  diff_self_eq_empty_of_keyOk docTwo (by decide)

/-- **C7 counterexample** — the claim fails as stated: the valid document
`docEmptyPath` (one contract under the empty file path) diffed against
itself does not produce an empty list; `parseKey` throws on its key
`"@@@@A"` and the whole diff rejects. -/
theorem diff_self_counterexample :
    generateDiffWithTargetRelease docEmptyPath docEmptyPath = none := by decide

/-- A produced fresh-side row records the parse of its own key. -/
theorem freshClassify_parse {targetM : List (String × String)} {e : String × String}
    {dif : Difference} (h : freshClassify targetM e = some dif) :
    parseKey e.1 = some (dif.path, dif.name) := by
  match hp : parseKey e.1 with
  | none => simp [freshClassify, hp] at h
  | some pn =>
    match hg : mapGet targetM e.1 with
    | none =>
      simp only [freshClassify, hp, hg] at h
      injection h with h1
      rw [← h1]
    | some td =>
      simp only [freshClassify, hp, hg] at h
      split at h
      · exact absurd h (by simp)
      · injection h with h1
        rw [← h1]

/-- A produced target-side row records the parse of its own key, and its key
is absent from the fresh map. -/
theorem targetClassify_parse {freshM : List (String × String)} {e : String × String}
    {dif : Difference} (h : targetClassify freshM e = some dif) :
    parseKey e.1 = some (dif.path, dif.name) ∧ mapHas freshM e.1 = false := by
  unfold targetClassify at h
  split at h
  · exact absurd h (by simp)
  · rename_i hhas
    refine ⟨?_, by simpa using hhas⟩
    match hp : parseKey e.1 with
    | none => simp [hp] at h
    | some pn =>
      simp only [hp] at h
      injection h with h1
      rw [← h1]

/-- **C3** — the diff classification, on key-hygienic documents: the diff
succeeds, and for every key of either contract-hash map it contains an
`added` row when the key is fresh-only, a `removed` row when it is
reference-only, a `changed` row when both digests exist and differ, and no
row at all for that `(path, name)` when both digests exist and agree. -/
theorem diff_classification_of_keyOk (fresh target : Document)
    (hf : KeyOk fresh) (ht : KeyOk target) :
    (generateDiffWithTargetRelease fresh target).isSome = true ∧
      (∀ k p n d, parseKey k = some (p, n) →
        mapGet (generateContractHashes fresh) k = some d →
        mapGet (generateContractHashes target) k = none →
        Difference.mk p n .added ∈ (generateDiffWithTargetRelease fresh target).getD []) ∧
      (∀ k p n d, parseKey k = some (p, n) →
        mapGet (generateContractHashes fresh) k = none →
        mapGet (generateContractHashes target) k = some d →
        Difference.mk p n .removed ∈ (generateDiffWithTargetRelease fresh target).getD []) ∧
      (∀ k p n d1 d2, parseKey k = some (p, n) →
        mapGet (generateContractHashes fresh) k = some d1 →
        mapGet (generateContractHashes target) k = some d2 → d1 ≠ d2 →
        Difference.mk p n .changed ∈ (generateDiffWithTargetRelease fresh target).getD []) ∧
      (∀ k p n d, parseKey k = some (p, n) →
        mapGet (generateContractHashes fresh) k = some d →
        mapGet (generateContractHashes target) k = some d →
        ∀ st, Difference.mk p n st ∉ (generateDiffWithTargetRelease fresh target).getD []) := by
  have hndF := noDupKeys_generateContractHashes fresh
  have hndT := noDupKeys_generateContractHashes target
  set F := generateContractHashes fresh with hFdef
  set T := generateContractHashes target with hTdef
  have hfresh : diffFreshLoop T F = some (F.filterMap (freshClassify T)) :=
    diffFreshLoop_eq (gch_entry_parse_isSome hf)
  have htarget : diffTargetLoop F T = some (T.filterMap (targetClassify F)) :=
    diffTargetLoop_eq (fun e he _ => gch_entry_parse_isSome ht e he)
  have hgen : generateDiffWithTargetRelease fresh target =
      some (F.filterMap (freshClassify T) ++ T.filterMap (targetClassify F)) := by
    simp [generateDiffWithTargetRelease, computeDifferences, ← hFdef, ← hTdef,
      hfresh, htarget]
  rw [hgen]
  simp only [Option.isSome_some, Option.getD_some, true_and]
  refine ⟨?_, ?_, ?_, ?_⟩
  · intro k p n d hp hF hT
    refine List.mem_append.mpr (Or.inl (List.mem_filterMap.mpr
      ⟨(k, d), mem_of_mapGet_eq_some hF, ?_⟩))
    simp [freshClassify, hp, hT]
  · intro k p n d hp hF hT
    refine List.mem_append.mpr (Or.inr (List.mem_filterMap.mpr
      ⟨(k, d), mem_of_mapGet_eq_some hT, ?_⟩))
    simp [targetClassify, mapHas, hF, hp]
  · intro k p n d1 d2 hp hF hT hne
    refine List.mem_append.mpr (Or.inl (List.mem_filterMap.mpr
      ⟨(k, d1), mem_of_mapGet_eq_some hF, ?_⟩))
    simp [freshClassify, hp, hT, Ne.symm hne]
  · intro k p n d hp hF hT st hmem
    have hkF : k ∈ mapKeys F := mapGet_isSome_iff_mem_keys.mp (by simp [hF])
    obtain ⟨p2, n2, hk2, hp2⟩ := gch_key_parse hf hkF
    rw [hp] at hp2
    injection hp2 with hp2
    injection hp2.symm with e1 e2
    rw [e1, e2] at hk2
    rcases List.mem_append.mp hmem with hside | hside
    · obtain ⟨e, heF, hcl⟩ := List.mem_filterMap.mp hside
      have hpe := freshClassify_parse hcl
      have hkeF : e.1 ∈ mapKeys F := List.mem_map_of_mem Prod.fst heF
      obtain ⟨p1, n1, hk1, hp1⟩ := gch_key_parse hf hkeF
      rw [hpe] at hp1
      injection hp1 with hp1
      injection hp1.symm with f1 f2
      rw [f1, f2] at hk1
      have hkeq : e.1 = k := by rw [hk1, hk2]
      have hget : mapGet F e.1 = some e.2 :=
        mapGet_eq_some_of_mem hndF (by rw [show e = (e.1, e.2) from rfl] at heF; exact heF)
      rw [hkeq, hF] at hget
      injection hget with hget
      unfold freshClassify at hcl
      rw [hpe, hkeq, hT, ← hget] at hcl
      simp at hcl
    · obtain ⟨e, heT, hcl⟩ := List.mem_filterMap.mp hside
      obtain ⟨hpe, hhas⟩ := targetClassify_parse hcl
      have hkeT : e.1 ∈ mapKeys T := List.mem_map_of_mem Prod.fst heT
      obtain ⟨p1, n1, hk1, hp1⟩ := gch_key_parse ht hkeT
      rw [hpe] at hp1
      injection hp1 with hp1
      injection hp1.symm with f1 f2
      rw [f1, f2] at hk1
      have hkeq : e.1 = k := by rw [hk1, hk2]
      rw [hkeq] at hhas
      simp [mapHas, hF] at hhas

/-- **C3 witness** — the `added` bullet evaluated on two concrete hygienic
documents: contract `B` exists only in the fresh document, and the diff
contains its `added` row. -/
theorem diff_classification_witness :
    Difference.mk "src/A.sol" "B" DiffStatus.added ∈
      (generateDiffWithTargetRelease docTwo docGood).getD [] :=
  (diff_classification_of_keyOk docTwo docGood (by decide) (by decide)).2.1
    (formKey "src/A.sol" "B") "src/A.sol" "B" (hashContract contractGF)
    (by decide) rfl rfl

/-- **C3 counterexample** — the classification fails as stated on arbitrary
valid documents: `docEmptyName` (one contract with an empty contract name)
holds one fresh-only key, so the claim requires an `added` row, but the
diff against the empty reference document throws on that key instead of
producing a result. -/
theorem diff_classification_counterexample :
    generateDiffWithTargetRelease docEmptyName [] = none := by decide

/-! ## Digest shape lemmas -/

theorem sha256_length (msg : List Nat) : (sha256 msg).length = 32 := by
  simp [sha256, wordBytes]

theorem hexOfBytes_length (bs : List Nat) : (hexOfBytes bs).length = 2 * bs.length := by
  induction bs with
  | nil => simp [hexOfBytes]
  | cons b rest ih =>
    simp only [hexOfBytes, List.flatMap_cons] at ih ⊢
    simp [ih]
    omega

theorem base64Chars_length (bs : List Nat) :
    (base64Chars bs).length = 4 * ((bs.length + 2) / 3) := by
  match bs with
  | [] => simp [base64Chars]
  | [b0] => simp [base64Chars]
  | [b0, b1] => simp [base64Chars]
  | b0 :: b1 :: b2 :: rest =>
    have := base64Chars_length rest
    simp only [base64Chars, List.length_cons, this]
    omega

/-- The summary builder's contract digest is a 64-character hex string, in
particular never the empty string (so the truthiness guard of the filter
walk never masks a real cursor). -/
theorem summaryContractDigest_ne_empty (c : ContractInfo) :
    summaryContractDigest c ≠ "" := by
  intro h
  have hdata := congrArg String.data h
  have hlen := congrArg List.length hdata
  simp only [summaryContractDigest] at hlen
  rw [hexOfBytes_length, sha256_length] at hlen
  simp at hlen

/-! ## The filter walk agrees with its specification -/

/-- On digest lists without the empty string and with a cursor that is never
the empty string, the code walk `filterSimilarLoop` computes exactly the
walk described by the specification. -/
theorem filterSimilarLoop_eq_specWalk :
    ∀ (tuples : List (String × String)) (cursor : Option String),
      (∀ p ∈ tuples, p.2 ≠ "") →
      (cursor = none ∨ ∃ h, cursor = some h ∧ h ≠ "") →
      filterSimilarLoop cursor tuples = specFilterWalk cursor tuples := by
  intro tuples
  induction tuples with
  | nil => intro cursor _ _; rfl
  | cons t rest ih =>
    intro cursor hne hcur
    obtain ⟨release, digest⟩ := t
    have hdig : digest ≠ "" := hne (release, digest) (List.mem_cons_self ..)
    have hrest : ∀ p ∈ rest, p.2 ≠ "" := fun p hp => hne p (List.mem_cons_of_mem _ hp)
    by_cases hsem : isSemanticVersion release
    · rcases hcur with rfl | ⟨h, rfl, hne0⟩
      · simp only [filterSimilarLoop, specFilterWalk, hsem]
        simp [ih (some digest) hrest (Or.inr ⟨digest, rfl, hdig⟩)]
      · by_cases heq : h = digest
        · simp only [filterSimilarLoop, specFilterWalk, hsem]
          simp only [heq]
          simp [hne0, heq, ih (some digest) hrest (Or.inr ⟨digest, rfl, hdig⟩), heq ▸ hne0]
        · simp only [filterSimilarLoop, specFilterWalk, hsem]
          have : ¬(some digest = some h) := by
            intro hx
            injection hx with hx
            exact heq hx.symm
          simp [hne0, heq, this, ih (some digest) hrest (Or.inr ⟨digest, rfl, hdig⟩)]
    · simp only [filterSimilarLoop, specFilterWalk, hsem]
      simp [ih cursor hrest hcur]

/-- **C1** — the summary filter behaves as specified: the builder's digests
are never empty, so on every tuple list the builder can produce, the
`filterSimilar` walk keeps opaque release names unconditionally without
touching the cursor, and keeps a semantic-version-shaped name exactly when
its digest differs from the cursor (updating the cursor to it); with
`filterSimilar` disabled every tuple is kept unmodified. -/
theorem summary_filter_walk_spec :
    (∀ c : ContractInfo, summaryContractDigest c ≠ "") ∧
    (∀ tuples : List (String × String), (∀ p ∈ tuples, p.2 ≠ "") →
      updatedReleasesForContract true tuples = specFilterWalk none tuples) ∧
    (∀ tuples : List (String × String),
      updatedReleasesForContract false tuples = tuples.map Prod.fst) := by
  refine ⟨summaryContractDigest_ne_empty, ?_, ?_⟩
  · intro tuples hne
    simp only [updatedReleasesForContract, if_pos rfl]
    exact filterSimilarLoop_eq_specWalk tuples none hne (Or.inl rfl)
  · intro tuples
    simp [updatedReleasesForContract]

/-- **C1 witness** — the walk equality evaluated on a concrete tuple list
mixing opaque and semantic-version names with digest repetitions. -/
theorem summary_filter_walk_witness :
    updatedReleasesForContract true
      [("v1.0.0", "aa"), ("v1.1.0", "bb"), ("v2.0.0", "bb"), ("latest", "bb")] =
    specFilterWalk none
      [("v1.0.0", "aa"), ("v1.1.0", "bb"), ("v2.0.0", "bb"), ("latest", "bb")] :=
  summary_filter_walk_spec.2.1 _ (by decide)

/-! ## The ABI comparator is a total preorder; sorting neutralizes order -/

theorem charListLe_total : ∀ x y : List Char, charListLe x y = true ∨ charListLe y x = true := by
  intro x
  induction x with
  | nil => intro y; exact Or.inl rfl
  | cons a as ih =>
    intro y
    cases y with
    | nil => exact Or.inr rfl
    | cons b bs =>
      simp only [charListLe]
      by_cases h1 : a.toNat < b.toNat
      · left; simp [h1]
      · by_cases h2 : b.toNat < a.toNat
        · right; simp [h2, h1]
        · have := ih bs
          simp only [if_neg h1, if_neg h2]
          simpa [h1, h2] using this

theorem charListLe_trans : ∀ {x y z : List Char},
    charListLe x y = true → charListLe y z = true → charListLe x z = true := by
  intro x
  induction x with
  | nil => intro y z _ _; rfl
  | cons a as ih =>
    intro y z hxy hyz
    cases y with
    | nil => simp [charListLe] at hxy
    | cons b bs =>
      cases z with
      | nil => simp [charListLe] at hyz
      | cons c cs =>
        simp only [charListLe] at hxy hyz ⊢
        split_ifs at hxy hyz ⊢ <;>
          first
            | rfl
            | (exact ih hxy hyz)
            | (exfalso; omega)

theorem charListLe_antisymm : ∀ {x y : List Char},
    charListLe x y = true → charListLe y x = true → x = y := by
  intro x
  induction x with
  | nil =>
    intro y _ hyx
    cases y with
    | nil => rfl
    | cons b bs => simp [charListLe] at hyx
  | cons a as ih =>
    intro y hxy hyx
    cases y with
    | nil => simp [charListLe] at hxy
    | cons b bs =>
      simp only [charListLe] at hxy hyx
      by_cases h1 : a.toNat < b.toNat
      · have h2 : ¬b.toNat < a.toNat := by omega
        rw [if_neg h2, if_pos h1] at hyx
        simp at hyx
      · by_cases h2 : b.toNat < a.toNat
        · rw [if_neg h1, if_pos h2] at hxy
          simp at hxy
        · rw [if_neg h1, if_neg h2] at hxy
          rw [if_neg h2, if_neg h1] at hyx
          have h3 : a.toNat = b.toNat := by omega
          have hc : a = b := Char.ext (UInt32.ext h3)
          rw [hc, ih hxy hyx]

instance : IsTotal AbiItem abiNameRel :=
  ⟨fun a b => charListLe_total a.name.data b.name.data⟩

instance : IsTrans AbiItem abiNameRel :=
  ⟨fun _ _ _ hab hbc => charListLe_trans hab hbc⟩

/-- Two sorted permutations of each other are equal, given antisymmetry on
the elements actually present. -/
theorem eq_of_perm_of_sorted_antisymmOn {α : Type} {r : α → α → Prop} :
    ∀ {l₁ l₂ : List α}, l₁.Perm l₂ → l₁.Sorted r → l₂.Sorted r →
      (∀ a ∈ l₁, ∀ b ∈ l₁, r a b → r b a → a = b) → l₁ = l₂ := by
  intro l₁
  induction l₁ with
  | nil =>
    intro l₂ hp _ _ _
    exact (List.Perm.eq_nil hp.symm).symm
  | cons a t ih =>
    intro l₂ hp hs1 hs2 hanti
    cases l₂ with
    | nil => exact absurd hp.eq_nil (by simp)
    | cons b t₂ =>
      have hab : a = b := by
        by_cases h : a = b
        · exact h
        · have hbmem : b ∈ a :: t := hp.mem_iff.mpr (List.mem_cons_self ..)
          have hbt : b ∈ t := by
            rcases List.mem_cons.mp hbmem with h1 | h1
            · exact absurd h1.symm h
            · exact h1
          have hamem : a ∈ b :: t₂ := hp.mem_iff.mp (List.mem_cons_self ..)
          have hat : a ∈ t₂ := by
            rcases List.mem_cons.mp hamem with h1 | h1
            · exact absurd h1 h
            · exact h1
          have hr1 : r a b := (List.sorted_cons.mp hs1).1 b hbt
          have hr2 : r b a := (List.sorted_cons.mp hs2).1 a hat
          exact hanti a (List.mem_cons_self ..) b hbmem hr1 hr2
      subst hab
      have hpt : t.Perm t₂ := hp.cons_inv
      have hrec := ih hpt (List.sorted_cons.mp hs1).2 (List.sorted_cons.mp hs2).2
        (fun x hx y hy hr hr2 =>
          hanti x (List.mem_cons_of_mem _ hx) y (List.mem_cons_of_mem _ hy) hr hr2)
      rw [hrec]

/-- **C2** (amended) — the differencer's digest `hashContract` neutralizes
ABI member order: two contract entries that agree on `evm` and `metadata`
and whose ABI lists are permutations of each other with pairwise distinct
member names have the same digest. (The summary builder does *not* reuse
this definition — see the counterexample.) -/
theorem hashContract_abi_order_independent (c₁ c₂ : ContractInfo)
    (hperm : c₁.abi.Perm c₂.abi)
    (hnames : ∀ a ∈ c₁.abi, ∀ b ∈ c₁.abi, a.name = b.name → a = b)
    (hevm : c₁.evm = c₂.evm) (hmeta : c₁.metadata = c₂.metadata) :
    hashContract c₁ = hashContract c₂ := by
  have hs1 := List.sorted_insertionSort abiNameRel c₁.abi
  have hs2 := List.sorted_insertionSort abiNameRel c₂.abi
  have hp1 := List.perm_insertionSort abiNameRel c₁.abi
  have hp2 := List.perm_insertionSort abiNameRel c₂.abi
  have hperm2 : (List.insertionSort abiNameRel c₁.abi).Perm
      (List.insertionSort abiNameRel c₂.abi) :=
    hp1.trans (hperm.trans hp2.symm)
  have hanti : ∀ a ∈ List.insertionSort abiNameRel c₁.abi,
      ∀ b ∈ List.insertionSort abiNameRel c₁.abi,
      abiNameRel a b → abiNameRel b a → a = b := by
    intro a ha b hb hr1 hr2
    exact hnames a (hp1.mem_iff.mp ha) b (hp1.mem_iff.mp hb)
      (String.ext (charListLe_antisymm hr1 hr2))
  have heq := eq_of_perm_of_sorted_antisymmOn hperm2 hs1 hs2 hanti
  simp only [hashContract]
  rw [heq, hevm, hmeta]

/-- **C2 witness** — order independence evaluated on a concrete contract
with its two ABI members swapped. -/
theorem hashContract_abi_order_independent_witness :
    hashContract contractFG = hashContract contractGF :=
  hashContract_abi_order_independent contractFG contractGF
    (List.Perm.swap abiItemG abiItemF [])
    (by
      intro a ha b hb hnm
      simp only [contractFG, List.mem_cons, List.not_mem_nil, or_false] at ha hb
      rcases ha with rfl | rfl <;> rcases hb with rfl | rfl <;>
        first
          | rfl
          | (exfalso; revert hnm; decide))
    rfl rfl

set_option maxRecDepth 100000 in
/-- **C2 counterexample** — the summary builder does not use the
differencer's digest: on the very same concrete contract entry the two
digest computations disagree (the builder hashes the unsorted serialized
ABI and the whole `evm` object and ignores `metadata`). -/
theorem contract_digest_definitions_disagree :
    hashContract contractFG ≠ summaryContractDigest contractFG := by decide

/-! ## Artifact id derivation (content addressing) -/

/-- **C4** (amended) — each id derivation site is a fixed truncation of a
fixed SHA-256: both the push-path id and the local recomputed id are
12-character functions of the content's serialized bytes alone. The two
sites do *not* agree with each other: push encodes the digest in hex, the
local recomputation in base64 (see the counterexample). -/
theorem artifact_id_deterministic :
    (∀ c : String, (pushDerivedArtifactId c).length = 12 ∧
      (retrieveArtifactId c).length = 12) ∧
    (∀ c1 c2 : String, utf8Bytes c1 = utf8Bytes c2 →
      pushDerivedArtifactId c1 = pushDerivedArtifactId c2 ∧
      retrieveArtifactId c1 = retrieveArtifactId c2) := by
  constructor
  · intro c
    constructor
    · show ((hexOfBytes (sha256 (utf8Bytes c))).take 12).length = 12
      rw [List.length_take, hexOfBytes_length, sha256_length]
      decide
    · show ((base64Chars (sha256 (utf8Bytes c))).take 12).length = 12
      rw [List.length_take, base64Chars_length, sha256_length]
      decide
  · intro c1 c2 h
    unfold pushDerivedArtifactId retrieveArtifactId
    rw [h]
    exact ⟨rfl, rfl⟩

/-- **C4 witness** — determinism evaluated at a concrete content. -/
theorem artifact_id_deterministic_witness :
    (pushDerivedArtifactId "hello").length = 12 ∧
    pushDerivedArtifactId "hello" = pushDerivedArtifactId "hello" :=
  ⟨(artifact_id_deterministic.1 "hello").1,
   (artifact_id_deterministic.2 "hello" "hello" rfl).1⟩

/-- **C4 counterexample** — the push path and the local-storage
recomputation disagree on identical content: for the content `"hello"` the
push-path id is `2cf24dba5fb0` (hex) while `retrieveArtifactId` computes
`LPJNul+wow4m` (base64). -/
theorem artifact_id_paths_disagree :
    pushDerivedArtifactId "hello" ≠ retrieveArtifactId "hello" ∧
    pushDerivedArtifactId "hello" = "2cf24dba5fb0" ∧
    retrieveArtifactId "hello" = "LPJNul+wow4m" := by
  refine ⟨by decide, by decide, by decide⟩

/-! ## Push conflict policy -/

/-- **C6** — with a valid artifact, a reachable remote and an existing
remote tag: pushing without `force` throws the Conflict error and leaves
the store untouched, while pushing with `force` succeeds, returns the id
derived from the new content, and afterwards the tag key and the derived id
key both hold the new content. -/
theorem push_conflict_policy (content t : String) (env : PushEnv) (store : Store)
    (htne : t ≠ "") (hck : env.hasTagCheckOk = true) (hup : env.uploadOk = true)
    (htag : hasArtifactByTag store t = true) :
    pushArtifact (.ok content) (some t) false env store = (.error (.tagConflict t), store) ∧
    ((pushArtifact (.ok content) (some t) true env store).1 =
        .ok (pushDerivedArtifactId content) ∧
      mapGet (pushArtifact (.ok content) (some t) true env store).2.tags t = some content ∧
      mapGet (pushArtifact (.ok content) (some t) true env store).2.ids
        (pushDerivedArtifactId content) = some content) := by
  constructor
  · simp [pushArtifact, htne, hck, htag]
  · refine ⟨?_, ?_, ?_⟩
    · simp [pushArtifact, htne, hck, htag, hup]
    · simp only [pushArtifact, htne, hck, htag, hup]
      simp [uploadArtifact, htne, mapGet_mapSet_self]
    · simp only [pushArtifact, htne, hck, htag, hup]
      simp [uploadArtifact, htne, mapGet_mapSet_self]

/-- **C6 witness** — the conflict policy evaluated on a store already
holding the tag `v1`. -/
theorem push_conflict_policy_witness :
    pushArtifact (.ok "newcontent") (some "v1") false ⟨true, true⟩ storeWithV1 =
      (.error (.tagConflict "v1"), storeWithV1) ∧
    ((pushArtifact (.ok "newcontent") (some "v1") true ⟨true, true⟩ storeWithV1).1 =
        .ok (pushDerivedArtifactId "newcontent") ∧
      mapGet (pushArtifact (.ok "newcontent") (some "v1") true ⟨true, true⟩ storeWithV1).2.tags
        "v1" = some "newcontent" ∧
      mapGet (pushArtifact (.ok "newcontent") (some "v1") true ⟨true, true⟩ storeWithV1).2.ids
        (pushDerivedArtifactId "newcontent") = some "newcontent") :=
  push_conflict_policy "newcontent" "v1" ⟨true, true⟩ storeWithV1 (by decide) rfl rfl (by decide)

/-! ## Pull lemmas -/

/-- `Array.includes`-style membership: `l.contains a` agrees with `a ∈ l`. -/
theorem contains_iff_mem {l : List String} {a : String} : l.contains a = true ↔ a ∈ l :=
  List.elem_iff

/-- Solved form of a pull that passes listing, resolution and filtering:
the settlement loops report exactly the per-item outcomes, and the local
store gains exactly the successfully written names. -/
theorem pull_ok_characterization {env : PullEnv} {sel : Option String} {force : Bool}
    {L : LocalState} {rt ri tD iD fT fI : List String}
    (h1 : env.remoteListing = some (rt, ri))
    (h2 : resolveCandidates rt ri sel = .ok (tD, iD))
    (h3 : filterCandidates force env.localListingOk L (tD, iD) = .ok (fT, fI)) :
    pull env sel force L = .ok
      (⟨rt, ri, fT.filter (fun t => tagItemOk env t), fI.filter (fun i => idItemOk env i),
        fT.filter (fun t => !(tagItemOk env t)), fI.filter (fun i => !(idItemOk env i))⟩,
       ⟨L.tags ++ fT.filter (fun t => tagItemOk env t),
        L.ids ++ fI.filter (fun i => idItemOk env i)⟩) := by
  simp only [pull, h1, h2, h3]
  split
  · rename_i hempty
    have hT : fT = [] := List.isEmpty_iff.mp (Bool.and_elim_left hempty)
    have hI : fI = [] := List.isEmpty_iff.mp (Bool.and_elim_right hempty)
    subst hT; subst hI
    simp
  · rfl

/-- A pull only throws for the fatal remote-listing failure, an unresolved
selector, or (without `force`) the fatal local-listing failure. -/
theorem pull_error_characterization {env : PullEnv} {sel : Option String} {force : Bool}
    {L : LocalState} {e : PullError} (h : pull env sel force L = .error e) :
    (e = .remoteListingFailure ∧ env.remoteListing = none) ∨
    (∃ s, e = .unknownTagOrId s ∧ sel = some s) ∨
    (e = .localListingFailure ∧ force = false ∧ env.localListingOk = false) := by
  match henv : env.remoteListing with
  | none =>
    left
    simp only [pull, henv] at h
    injection h with h
    exact ⟨h.symm, rfl⟩
  | some (rt, ri) =>
    match hres : resolveCandidates rt ri sel with
    | .error e1 =>
      right; left
      simp only [pull, henv, hres] at h
      injection h with h
      match sel, hres with
      | some s, hres =>
        refine ⟨s, ?_, rfl⟩
        simp only [resolveCandidates] at hres
        split at hres
        · exact absurd hres (by simp)
        · split at hres
          · exact absurd hres (by simp)
          · split at hres
            · exact absurd hres (by simp)
            · injection hres with hres
              rw [← h, ← hres]
      | none, hres => simp [resolveCandidates] at hres
    | .ok cands =>
      match hfil : filterCandidates force env.localListingOk L cands with
      | .error e2 =>
        right; right
        obtain ⟨tD, iD⟩ := cands
        simp only [pull, henv, hres, hfil] at h
        injection h with h
        simp only [filterCandidates] at hfil
        split at hfil
        · exact absurd hfil (by simp)
        · split at hfil
          · exact absurd hfil (by simp)
          · injection hfil with hfil
            rename_i hforce hlocal
            exact ⟨by rw [← h, ← hfil], by simpa using hforce, by simpa using hlocal⟩
      | .ok filtered =>
        exfalso
        obtain ⟨tD, iD⟩ := cands
        obtain ⟨fT, fI⟩ := filtered
        rw [pull_ok_characterization henv hres hfil] at h
        exact absurd h (by simp)

/-- Splitting a list by a predicate splits each element count. -/
theorem count_filter_split (l : List String) (p : String → Bool) (a : String) :
    (l.filter p).count a + (l.filter (fun x => !(p x))).count a = l.count a := by
  induction l with
  | nil => simp
  | cons x rest ih =>
    rw [List.filter_cons, List.filter_cons]
    by_cases hp : p x = true
    · rw [if_pos hp, if_neg (by simp [hp])]
      simp only [List.count_cons]
      by_cases hxa : (x == a) = true
      · simp only [if_pos hxa]; omega
      · simp only [if_neg hxa]; omega
    · rw [if_neg hp, if_pos (by simp [hp])]
      simp only [List.count_cons]
      by_cases hxa : (x == a) = true
      · simp only [if_pos hxa]; omega
      · simp only [if_neg hxa]; omega

/-- **C5** (amended) — per-item failure isolation: a pull that passes
listing, resolution and filtering never throws; every filtered candidate is
settled independently and the failures are reported only through the
`failedTags` / `failedIds` fields; and the only thrown errors are the fatal
remote-listing failure, the unresolved selector, and — when `force` is off —
the fatal local-listing failure. -/
theorem pull_failure_isolation :
    (∀ (env : PullEnv) (sel : Option String) (force : Bool) (L : LocalState) (e : PullError),
      pull env sel force L = .error e →
      (e = .remoteListingFailure ∧ env.remoteListing = none) ∨
      (∃ s, e = .unknownTagOrId s ∧ sel = some s) ∨
      (e = .localListingFailure ∧ force = false ∧ env.localListingOk = false)) ∧
    (∀ (env : PullEnv) (sel : Option String) (force : Bool) (L : LocalState)
      (rt ri tD iD fT fI : List String),
      env.remoteListing = some (rt, ri) →
      resolveCandidates rt ri sel = .ok (tD, iD) →
      filterCandidates force env.localListingOk L (tD, iD) = .ok (fT, fI) →
      pull env sel force L = .ok
        (⟨rt, ri, fT.filter (fun t => tagItemOk env t), fI.filter (fun i => idItemOk env i),
          fT.filter (fun t => !(tagItemOk env t)), fI.filter (fun i => !(idItemOk env i))⟩,
         ⟨L.tags ++ fT.filter (fun t => tagItemOk env t),
          L.ids ++ fI.filter (fun i => idItemOk env i)⟩)) :=
  ⟨fun _ _ _ _ _ h => pull_error_characterization h,
   fun _ _ _ _ _ _ _ _ _ _ h1 h2 h3 => pull_ok_characterization h1 h2 h3⟩

/-- **C5 witness** — a pull with one failing download (`v2`) still returns a
result; the failure is reported in `failedTags` only. -/
theorem pull_failure_isolation_witness :
    pull pullEnvW none false ⟨[], []⟩ = .ok
      (⟨["v1", "v2"], ["aaaabbbbcccc"], ["v1"], ["aaaabbbbcccc"], ["v2"], []⟩,
       ⟨["v1"], ["aaaabbbbcccc"]⟩) :=
  pull_failure_isolation.2 pullEnvW none false ⟨[], []⟩ ["v1", "v2"] ["aaaabbbbcccc"]
    ["v1", "v2"] ["aaaabbbbcccc"] ["v1", "v2"] ["aaaabbbbcccc"] rfl rfl rfl

/-- **C5 counterexample** — the claim's "only the remote-listing failure or
an unresolved selector" is incomplete: with a reachable remote, no
selector, and a failing *local* listing, pull throws a third kind of fatal
error. -/
theorem pull_local_listing_failure_counterexample :
    pull pullEnvLocalFail none false ⟨[], []⟩ = .error .localListingFailure := rfl

/-- **C9** — for every pull that reaches the download phase, `pulledTags`
and `failedTags` partition the filtered tag candidates (the two lists are
disjoint and their counts add up to the candidate counts, so no other value
appears), and likewise for ids. -/
theorem pull_partition (env : PullEnv) (sel : Option String) (force : Bool)
    (L : LocalState) (rt ri tD iD fT fI : List String) (r : PullResult) (L2 : LocalState)
    (h1 : env.remoteListing = some (rt, ri))
    (h2 : resolveCandidates rt ri sel = .ok (tD, iD))
    (h3 : filterCandidates force env.localListingOk L (tD, iD) = .ok (fT, fI))
    (h4 : pull env sel force L = .ok (r, L2)) :
    (∀ t, r.pulledTags.count t + r.failedTags.count t = fT.count t) ∧
    (∀ t, t ∈ r.pulledTags → t ∉ r.failedTags) ∧
    (∀ i, r.pulledIds.count i + r.failedIds.count i = fI.count i) ∧
    (∀ i, i ∈ r.pulledIds → i ∉ r.failedIds) := by
  rw [pull_ok_characterization h1 h2 h3] at h4
  injection h4 with h4
  have hr : r = ⟨rt, ri, fT.filter (fun t => tagItemOk env t),
      fI.filter (fun i => idItemOk env i), fT.filter (fun t => !(tagItemOk env t)),
      fI.filter (fun i => !(idItemOk env i))⟩ :=
    (congrArg Prod.fst h4).symm
  subst hr
  refine ⟨?_, ?_, ?_, ?_⟩
  · intro t; exact count_filter_split fT _ t
  · intro t hmem hmem2
    have := (List.mem_filter.mp hmem).2
    have := (List.mem_filter.mp hmem2).2
    simp_all
  · intro i; exact count_filter_split fI _ i
  · intro i hmem hmem2
    have := (List.mem_filter.mp hmem).2
    have := (List.mem_filter.mp hmem2).2
    simp_all

/-- **C9 witness** — the tag partition count evaluated for the concrete
pull of `pullEnvW` at the tag `v2`, whose download fails. -/
theorem pull_partition_witness :
    (["v1"] : List String).count "v2" + (["v2"] : List String).count "v2" =
      (["v1", "v2"] : List String).count "v2" :=
  (pull_partition pullEnvW none false ⟨[], []⟩ ["v1", "v2"] ["aaaabbbbcccc"]
    ["v1", "v2"] ["aaaabbbbcccc"] ["v1", "v2"] ["aaaabbbbcccc"]
    ⟨["v1", "v2"], ["aaaabbbbcccc"], ["v1"], ["aaaabbbbcccc"], ["v2"], []⟩
    ⟨["v1"], ["aaaabbbbcccc"]⟩ rfl rfl rfl rfl).1 "v2"

/-- **C8** — pull convergence: with a fixed environment (fixed remote state
and per-item outcomes) and no `force`, a second pull right after a
successful one pulls nothing: everything that could be fetched is already
local, and what failed fails again into `failedTags` / `failedIds` rather
than `pulledTags` / `pulledIds`. -/
theorem pull_convergence (env : PullEnv) (sel : Option String) (L : LocalState)
    (r1 : PullResult) (L1 : LocalState)
    (h : pull env sel false L = .ok (r1, L1)) :
    (pull env sel false L1).map (fun rl => (rl.1.pulledTags, rl.1.pulledIds)) =
      .ok ([], []) := by
  match henv : env.remoteListing with
  | none => rw [pull, henv] at h; exact absurd h (by simp)
  | some (rt, ri) =>
    match hres : resolveCandidates rt ri sel with
    | .error e1 =>
      simp only [pull, henv, hres] at h
      exact absurd h (by simp)
    | .ok (tD, iD) =>
      match hloc : env.localListingOk with
      | false =>
        have : filterCandidates false env.localListingOk L (tD, iD) =
            .error .localListingFailure := by
          simp [filterCandidates, hloc]
        simp only [pull, henv, hres, this] at h
        exact absurd h (by simp)
      | true =>
        have hfil : filterCandidates false env.localListingOk L (tD, iD) =
            .ok (tD.filter (fun t => !(L.tags.contains t)),
                 iD.filter (fun i => !(L.ids.contains i))) := by
          simp [filterCandidates, hloc]
        set fT := tD.filter (fun t => !(L.tags.contains t)) with hfT
        set fI := iD.filter (fun i => !(L.ids.contains i)) with hfI
        rw [pull_ok_characterization henv hres hfil] at h
        injection h with h
        have hL1 : L1 = ⟨L.tags ++ fT.filter (fun t => tagItemOk env t),
            L.ids ++ fI.filter (fun i => idItemOk env i)⟩ :=
          (congrArg Prod.snd h).symm
        have hfil2 : filterCandidates false env.localListingOk L1 (tD, iD) =
            .ok (tD.filter (fun t => !(L1.tags.contains t)),
                 iD.filter (fun i => !(L1.ids.contains i))) := by
          simp [filterCandidates, hloc]
        rw [pull_ok_characterization henv hres hfil2]
        have htagNil : (tD.filter (fun t => !(L1.tags.contains t))).filter
            (fun t => tagItemOk env t) = [] := by
          rw [List.filter_eq_nil_iff]
          intro t ht hok
          obtain ⟨htD, hnc⟩ := List.mem_filter.mp ht
          have hnotin : t ∉ L1.tags := by
            intro hc
            rw [contains_iff_mem.mpr hc] at hnc
            simp at hnc
          have hnotinL : t ∉ L.tags := by
            intro hc
            apply hnotin
            rw [hL1]
            exact List.mem_append.mpr (Or.inl hc)
          have htmem : t ∈ fT := by
            rw [hfT]
            refine List.mem_filter.mpr ⟨htD, ?_⟩
            have : L.tags.contains t = false := by
              rw [← Bool.not_eq_true]
              intro hc
              exact hnotinL (contains_iff_mem.mp hc)
            rw [this]
            rfl
          apply hnotin
          rw [hL1]
          exact List.mem_append.mpr (Or.inr (List.mem_filter.mpr ⟨htmem, hok⟩))
        have hidNil : (iD.filter (fun i => !(L1.ids.contains i))).filter
            (fun i => idItemOk env i) = [] := by
          rw [List.filter_eq_nil_iff]
          intro t ht hok
          obtain ⟨htD, hnc⟩ := List.mem_filter.mp ht
          have hnotin : t ∉ L1.ids := by
            intro hc
            rw [contains_iff_mem.mpr hc] at hnc
            simp at hnc
          have hnotinL : t ∉ L.ids := by
            intro hc
            apply hnotin
            rw [hL1]
            exact List.mem_append.mpr (Or.inl hc)
          have htmem : t ∈ fI := by
            rw [hfI]
            refine List.mem_filter.mpr ⟨htD, ?_⟩
            have : L.ids.contains t = false := by
              rw [← Bool.not_eq_true]
              intro hc
              exact hnotinL (contains_iff_mem.mp hc)
            rw [this]
            rfl
          apply hnotin
          rw [hL1]
          exact List.mem_append.mpr (Or.inr (List.mem_filter.mpr ⟨htmem, hok⟩))
        rw [htagNil, hidNil]
        rfl

/-- **C8 witness** — the second pull after the concrete `pullEnvW` pull
fetches nothing (the `v2` failure fails again, into `failedTags`). -/
theorem pull_convergence_witness :
    (pull pullEnvW none false ⟨["v1"], ["aaaabbbbcccc"]⟩).map
      (fun rl => (rl.1.pulledTags, rl.1.pulledIds)) = .ok ([], []) :=
  pull_convergence pullEnvW none ⟨[], []⟩
    ⟨["v1", "v2"], ["aaaabbbbcccc"], ["v1"], ["aaaabbbbcccc"], ["v2"], []⟩
    ⟨["v1"], ["aaaabbbbcccc"]⟩ rfl

/-! ## The release-name classifier's quirks -/

theorem jsSplitGo_ne_nil (s : Char) (ss : List Char) :
    ∀ (fuel : Nat) (acc l : List Char), jsSplitGo s ss fuel acc l ≠ [] := by
  intro fuel
  induction fuel with
  | zero => intro acc l; simp [jsSplitGo]
  | succ n ih =>
    intro acc l
    cases l with
    | nil => simp [jsSplitGo]
    | cons c rest =>
      simp only [jsSplitGo]
      split
      · match h : stripSeq ss rest with
        | some rem => simp [h]
        | none => simpa [h] using ih (c :: acc) rest
      · exact ih (c :: acc) rest

/-- **C10** (amended) — the classifier accepts the empty string, the bare
`v`, and every name whose dot-separated components (after stripping one
leading `v`) number at most three and each coerce under JavaScript `Number`
to an integral value — so `""`, `"v"`, `"1e2"` and `"-1"` all take part in
digest-based dropping (shown on a concrete walk) instead of being retained
as opaque names. -/
theorem isSemanticVersion_quirks :
    isSemanticVersion "" = true ∧ isSemanticVersion "v" = true ∧
    isSemanticVersion "1e2" = true ∧ isSemanticVersion "-1" = true ∧
    (∀ s : String,
      (jsSplit '.' [] (match s.data with | 'v' :: rest => rest | l => l)).length ≤ 3 →
      (∀ p ∈ jsSplit '.' [] (match s.data with | 'v' :: rest => rest | l => l),
        semverPartBad p = false) →
      isSemanticVersion s = true) ∧
    updatedReleasesForContract true [("", "dd"), ("1e2", "dd")] = [""] := by
  refine ⟨by decide, by decide, by decide, by decide, ?_, by decide⟩
  intro s h3 hall
  simp only [isSemanticVersion]
  have hne : jsSplit '.' [] (match s.data with | 'v' :: rest => rest | l => l) ≠ [] :=
    jsSplitGo_ne_nil '.' [] _ [] _
  have h0 : ¬((jsSplit '.' [] (match s.data with | 'v' :: rest => rest | l => l)).length = 0) := by
    simpa [List.length_eq_zero] using hne
  have hany : (jsSplit '.' [] (match s.data with | 'v' :: rest => rest | l => l)).any
      semverPartBad = false := by
    rw [List.any_eq_false]
    intro p hp
    simp [hall p hp]
  simp only [h0, if_false, hany]
  have hgt : ¬((jsSplit '.' [] (match s.data with | 'v' :: rest => rest | l => l)).length > 3) := by
    omega
  simp [h0, hgt, hany]

/-- **C10 witness** — the general acceptance clause evaluated at a concrete
three-component numeric name. -/
theorem isSemanticVersion_quirks_witness : isSemanticVersion "10.20.30" = true :=
  isSemanticVersion_quirks.2.2.2.2.1 "10.20.30" (by decide) (by decide)

/-- **C10 counterexample** — the claim's universal clause fails: every
dot-separated component of `"1.2.3.4"` is numeric with an integral value,
yet the classifier rejects it (it allows at most three components). -/
theorem isSemanticVersion_counterexample :
    isSemanticVersion "1.2.3.4" = false ∧
    (jsSplit '.' [] "1.2.3.4".data).any semverPartBad = false := by
  refine ⟨by decide, by decide⟩

end Soko
